import Mathlib

/-!
Verification of the cmockery mock/expectation engine and test harness
described in the repository's design document, against the code present in
the repository (the cmockery header, the implementation excerpts quoted in
the notes, and the README's `_test_free` excerpt).  Parts of the engine
whose bodies are not in the repository are modelled from the specification
and are marked as such in their doc comments.
-/

namespace Cmockery

/-- Association map from keys to per-key queues, modelling cmockery's
symbol maps (`global_function_result_map`, `global_function_parameter_map`):
each key owns an ordered list of entries.  A missing key is the same as a
key with an empty queue. -/
def qlookup {κ α : Type} [DecidableEq κ] : List (κ × List α) → κ → List α
  | [], _ => []
  | (k, q) :: rest, key => if k = key then q else qlookup rest key

/-- Replace the queue stored under `key` (installing the key at the end of
the map when it is absent). -/
def qset {κ α : Type} [DecidableEq κ] : List (κ × List α) → κ → List α → List (κ × List α)
  | [], key, q => [(key, q)]
  | (k, q0) :: rest, key, q =>
      if k = key then (k, q) :: rest else (k, q0) :: qset rest key q

/-- Append one entry at the tail of `key`'s queue, as the symbol-map `add`
used by the registration functions does. -/
def qappend {κ α : Type} [DecidableEq κ] (m : List (κ × List α)) (key : κ) (a : α) :
    List (κ × List α) :=
  qset m key (qlookup m key ++ [a])

theorem qlookup_qset_self {κ α : Type} [DecidableEq κ]
    (m : List (κ × List α)) (key : κ) (q : List α) :
    qlookup (qset m key q) key = q := by
  induction m with
  | nil => simp [qset, qlookup]
  | cons hd tl ih =>
      obtain ⟨k, q0⟩ := hd
      by_cases h : k = key
      · simp [qset, qlookup, h]
      · simp [qset, qlookup, h, ih]

theorem qlookup_qset_other {κ α : Type} [DecidableEq κ]
    (m : List (κ × List α)) (key key' : κ) (q : List α) (hne : key ≠ key') :
    qlookup (qset m key q) key' = qlookup m key' := by
  induction m with
  | nil => simp [qset, qlookup, hne]
  | cons hd tl ih =>
      obtain ⟨k, q0⟩ := hd
      by_cases h : k = key
      · subst h
        simp [qset, qlookup, hne]
      · simp [qset, qlookup, h, ih]

theorem qlookup_qappend_self {κ α : Type} [DecidableEq κ]
    (m : List (κ × List α)) (key : κ) (a : α) :
    qlookup (qappend m key a) key = qlookup m key ++ [a] := by
  simp [qappend, qlookup_qset_self]

theorem qlookup_qappend_other {κ α : Type} [DecidableEq κ]
    (m : List (κ × List α)) (key key' : κ) (a : α) (hne : key ≠ key') :
    qlookup (qappend m key a) key' = qlookup m key' := by
  simp [qappend, qlookup_qset_other m key key' _ hne]

/-- Repeat count of a queued value or expectation: `count` registrations use
a positive count, and the sentinel `-1` (`WILL_RETURN_ALWAYS`) means the
entry stays forever; the latter is modelled as `none`. -/
abbrev RepeatCount := Option Nat

/-- Entry of a per-function return-value queue, the `{payload, remaining}`
record of the design: a word-sized payload (a `LargestIntegralType` value)
together with the number of reads it still serves. -/
structure QueuedValue where
  payload : Nat
  remaining : RepeatCount
  deriving Repr, DecidableEq

/-- Modelled from the spec: the head-consuming step shared by ValueQueue
reads and expectation-queue reads (the body of `get_symbol_value` /
`free_value` is not under src/).  The head entry's payload is returned;
a finite `remaining` is decremented and the entry removed when it reaches
zero, an INFINITE entry is left in place. -/
def popQueue : List QueuedValue → Option (Nat × List QueuedValue)
  | [] => none
  | e :: rest =>
      match e.remaining with
      | none => some (e.payload, e :: rest)
      | some k =>
          if k ≤ 1 then some (e.payload, rest)
          else some (e.payload, ⟨e.payload, some (k - 1)⟩ :: rest)

/-- Width in bits of `LargestIntegralType` (`unsigned long long` in
`cmockery.h`): the single maximal-width integral representation every
compared value is cast to. -/
def largestIntegralTypeWidth : Nat := 64

/-- Values of `LargestIntegralType` are 64-bit words, modelled as natural
numbers below `2 ^ 64`. -/
def isLargestIntegralValue (v : Nat) : Prop := v < 2 ^ largestIntegralTypeWidth

/-- A source-level integral (or pointer) operand before widening: a bit
pattern of some native width, signed or unsigned, as handed to the
`cast_to_largest_integral_type` macro of `cmockery.h`. -/
structure MachineInt where
  width : Nat
  signed : Bool
  bits : Nat
  hbits : bits < 2 ^ width

/-- Scalar (mathematical) value denoted by a machine integer: two's
complement for signed patterns with the sign bit set, the pattern itself
otherwise. -/
def MachineInt.toScalar (m : MachineInt) : Int :=
  if m.signed ∧ 2 ^ (m.width - 1) ≤ m.bits then (m.bits : Int) - 2 ^ m.width
  else (m.bits : Int)

/-- The `cast_to_largest_integral_type` macro of `cmockery.h`:
`((LargestIntegralType)(value))`.  C's integer conversion to the 64-bit
unsigned type sign-extends a negative signed operand and zero-extends the
rest, i.e. produces the scalar value reduced modulo `2 ^ 64`. -/
def cast_to_largest_integral_type (m : MachineInt) : Nat :=
  if m.signed ∧ 2 ^ (m.width - 1) ≤ m.bits then 2 ^ 64 - (2 ^ m.width - m.bits)
  else m.bits

/-- The `values_equal_display_error` comparison of the notes: returns
whether the two widened values are equal (printing a diagnostic when they
are not, which the model omits). -/
def values_equal_display_error (left right : Nat) : Bool :=
  left == right

/-- Outcome of the `exit_test` failure primitive: transfer control to the
per-test jump buffer, terminate the process, or return to the caller. -/
inductive ExitAction where
  | longjmpRunTestEnv
  | exitProcess (code : Int)
  | returnNormally
  deriving Repr, DecidableEq

/-- The `exit_test` function quoted in the notes: when a test is running
it longjmps to `global_run_test_env`; otherwise, when `quit_application`
is nonzero, it calls `exit(-1)`; otherwise it simply returns. -/
def exit_test (quit_application : Int) (global_running_test : Int) : ExitAction :=
  if global_running_test ≠ 0 then ExitAction.longjmpRunTestEnv
  else if quit_application ≠ 0 then ExitAction.exitProcess (-1)
  else ExitAction.returnNormally

/-- The `_fail` function quoted in the notes: prints the failure location
and calls `exit_test(1)`. -/
def _fail (global_running_test : Int) : ExitAction :=
  exit_test 1 global_running_test

/-- Tagged expectation predicate registered for a (function, parameter)
key; scalar kinds of the design's ExpectationEvent taxonomy.  The string
and memory kinds compare pointed-to bytes and live outside this
word-sized-scalar model; no claim concerns them. -/
inductive CheckEvent where
  | exactValue (v : Nat)
  | excludedValue (v : Nat)
  | valueInSet (vs : List Nat)
  | valueNotInSet (vs : List Nat)
  | valueInRange (lo hi : Nat)
  | valueNotInRange (lo hi : Nat)
  | anyValue
  | customPredicate (f : Nat → Nat → Bool) (data : Nat)

/-- Modelled from the spec: the predicate evaluation of §4.2 (the bodies of
`check_for_value`, `integer_in_range_display_error` and companions are not
under src/).  Equality kinds compare via `values_equal_display_error`
over the widened representation; range kinds use inclusive bounds; set
kinds use linear membership; `anyValue` always passes; a custom predicate
passes on a true result. -/
def checkEvent : CheckEvent → Nat → Bool
  | CheckEvent.exactValue v, actual => values_equal_display_error v actual
  | CheckEvent.excludedValue v, actual => !values_equal_display_error v actual
  | CheckEvent.valueInSet vs, actual => vs.contains actual
  | CheckEvent.valueNotInSet vs, actual => !vs.contains actual
  | CheckEvent.valueInRange lo hi, actual => decide (lo ≤ actual) && decide (actual ≤ hi)
  | CheckEvent.valueNotInRange lo hi, actual => decide (actual < lo) || decide (hi < actual)
  | CheckEvent.anyValue, _ => true
  | CheckEvent.customPredicate f data, actual => f actual data

/-- Expectation-queue entry: a predicate event with its remaining use
count, the CheckParameterEvent of `cmockery.h` paired with the symbol-map
reference count. -/
structure ExpectEntry where
  event : CheckEvent
  remaining : RepeatCount

/-- Process-wide engine state: the per-function return-value map, the
per-(function, parameter) expectation map, and the set of outstanding
test-tracked heap blocks (addresses). -/
structure EngineState where
  values : List (String × List QueuedValue)
  expects : List ((String × String) × List ExpectEntry)
  allocs : List Nat

/-- Modelled from the spec: `_will_return` (body not under src/) appends a
`{payload, remaining}` entry at the tail of `function`'s queue. -/
def _will_return (s : EngineState) (function : String) (value : Nat)
    (count : RepeatCount) : EngineState :=
  { s with values := qappend s.values function ⟨value, count⟩ }

/-- Modelled from the spec: the `_expect_*` registrations (bodies not
under src/) append an event at the tail of the (function, parameter)
queue. -/
def _expect_event (s : EngineState) (function parameter : String)
    (event : CheckEvent) (count : RepeatCount) : EngineState :=
  { s with expects := qappend s.expects (function, parameter) ⟨event, count⟩ }

/-- Result of a ValueQueue read: either the popped payload with the
successor state, or the fatal-misuse outcome for an empty queue. -/
inductive MockResult where
  | value (v : Nat) (s : EngineState)
  | fatalMisuse

/-- Modelled from the spec: `_mock` (body not under src/) pops the head of
`function`'s return-value queue; an empty queue is a fatal configuration
error that aborts the whole process rather than producing a per-item
verdict. -/
def _mock (s : EngineState) (function : String) : MockResult :=
  match popQueue (qlookup s.values function) with
  | none => MockResult.fatalMisuse
  | some (v, q') =>
      MockResult.value v { s with values := qset s.values function q' }

/-- Head-consuming step on an expectation queue, mirroring `popQueue`. -/
def consumeExpect (e : ExpectEntry) (rest : List ExpectEntry) : List ExpectEntry :=
  match e.remaining with
  | none => e :: rest
  | some k => if k ≤ 1 then rest else ⟨e.event, some (k - 1)⟩ :: rest

/-- Outcome of a parameter check: a pass with the successor state, or a
recoverable per-item failure signalled through the harness boundary. -/
inductive CheckOutcome where
  | pass (s : EngineState)
  | failTestItem

/-- Modelled from the spec: `_check_expected` (body not under src/)
reads the head of the (function, parameter) expectation queue.  An empty
queue is itself a reported, recoverable test failure (MissingExpectation);
a predicate pass consumes one use; a predicate failure is reported and
signalled through the same recoverable channel. -/
def _check_expected (s : EngineState) (function parameter : String)
    (value : Nat) : CheckOutcome :=
  match qlookup s.expects (function, parameter) with
  | [] => CheckOutcome.failTestItem
  | e :: rest =>
      if checkEvent e.event value then
        CheckOutcome.pass
          { s with expects := qset s.expects (function, parameter) (consumeExpect e rest) }
      else CheckOutcome.failTestItem

/-- Result of `_test_free`: the non-null assertion fails on a null
pointer, a pointer without a live record is an invalid free, and a
tracked pointer's record is removed. -/
inductive FreeResult where
  | assertionFailure
  | invalidFreeFailure
  | ok (allocs : List Nat)
  deriving Repr, DecidableEq

/-- The `_test_free` behaviour: the README excerpt shows its first
statement asserts the pointer is non-null (`_assert_true((intptr_t)ptr,
"ptr", file, line)`), so a null pointer is an assertion failure; the rest
is modelled from the spec, which reports a free without a matching record
and otherwise removes the record. -/
def _test_free (ptr : Nat) (allocs : List Nat) : FreeResult :=
  if ptr = 0 then FreeResult.assertionFailure
  else if allocs.contains ptr then FreeResult.ok (allocs.erase ptr)
  else FreeResult.invalidFreeFailure

/-- The `UnitTestFunctionType` enum of `cmockery.h`: the role of an item
in a suite. -/
inductive UnitTestFunctionType where
  | test
  | setup
  | teardown
  deriving Repr, DecidableEq

/-- One step a test callback can perform against the engine, the
trace-level view of a test body: registrations, mock-side reads, parameter
checks, direct assertions, and tracked heap traffic.  `actMalloc` carries
the address the allocator returned for the block. -/
inductive TestAction where
  | actWillReturn (function : String) (value : Nat) (count : RepeatCount)
  | actExpect (function parameter : String) (event : CheckEvent) (count : RepeatCount)
  | actMockRead (function : String)
  | actCheckExpected (function parameter : String) (actual : Nat)
  | actAssert (cond : Bool)
  | actMalloc (addr : Nat)
  | actFree (addr : Nat)

/-- How a test callback's execution ends: a normal return, a transfer to
the harness's abort boundary (the `longjmp` to `global_run_test_env`), or
the fatal-misuse process abort. -/
inductive BodyResult where
  | normalReturn (s : EngineState)
  | abortedToHarness (s : EngineState)
  | fatalAbort

/-- Executes a test body action by action: registrations and passing
checks continue with the updated state; a failing assertion, a failing or
missing parameter expectation, and an invalid or null free transfer
control to the harness boundary (none of the remaining actions run); a
mock read from an empty queue aborts the whole process. -/
def runBody : List TestAction → EngineState → BodyResult
  | [], s => BodyResult.normalReturn s
  | TestAction.actWillReturn f v c :: rest, s => runBody rest (_will_return s f v c)
  | TestAction.actExpect f p ev c :: rest, s => runBody rest (_expect_event s f p ev c)
  | TestAction.actMockRead f :: rest, s =>
      match _mock s f with
      | MockResult.value _ s' => runBody rest s'
      | MockResult.fatalMisuse => BodyResult.fatalAbort
  | TestAction.actCheckExpected f p v :: rest, s =>
      match _check_expected s f p v with
      | CheckOutcome.pass s' => runBody rest s'
      | CheckOutcome.failTestItem => BodyResult.abortedToHarness s
  | TestAction.actAssert cond :: rest, s =>
      if cond then runBody rest s else BodyResult.abortedToHarness s
  | TestAction.actFree addr :: rest, s =>
      match _test_free addr s.allocs with
      | FreeResult.ok allocs' => runBody rest { s with allocs := allocs' }
      | FreeResult.assertionFailure => BodyResult.abortedToHarness s
      | FreeResult.invalidFreeFailure => BodyResult.abortedToHarness s
  | TestAction.actMalloc addr :: rest, s =>
      runBody rest { s with allocs := addr :: s.allocs }

/-- Modelled from the spec: the leftover test performed by
`fail_if_leftover_values` (body not under src/), true when any function
still owns a queued return value or any (function, parameter) key still
owns an expectation. -/
def hasLeftoverValues (s : EngineState) : Bool :=
  s.values.any (fun kv => !kv.2.isEmpty) || s.expects.any (fun kv => !kv.2.isEmpty)

/-- Modelled from the spec: the checkpoint diff of
`fail_if_blocks_allocated` (body not under src/): the blocks live now that
were not live at the checkpoint are the leaks. -/
def blocksAllocatedSince (checkPoint current : List Nat) : List Nat :=
  current.filter (fun a => !checkPoint.contains a)

/-- What one `_run_test` invocation reports: the verdict, whether the
leftover check and the allocation-checkpoint diff were performed, and the
leaked blocks the diff found. -/
structure RunReport where
  verdict : Bool
  ranLeftoverCheck : Bool
  ranLeakCheck : Bool
  leaked : List Nat
  deriving Repr, DecidableEq

/-- Outcome of `_run_test`: a per-item report with the successor engine
state, or the process-wide fatal abort escaping the item. -/
inductive RunOutcome where
  | finished (r : RunReport) (s : EngineState)
  | fatalAbort

/-- The `_run_test` control flow quoted in the notes.  A checkpoint is
taken, the callback runs inside the `setjmp` boundary; on a normal return
`fail_if_leftover_values` runs and, unless the item is a SETUP, the
checkpoint is diffed for leaks, the verdict passing only when both checks
are clean; when control arrives through the boundary instead the item is
marked failed and neither post-check is performed. -/
def _run_test (body : List TestAction) (function_type : UnitTestFunctionType)
    (s : EngineState) : RunOutcome :=
  let check_point := s.allocs
  match runBody body s with
  | BodyResult.normalReturn s' =>
      let leftover := hasLeftoverValues s'
      let leaks :=
        if function_type ≠ UnitTestFunctionType.setup then
          blocksAllocatedSince check_point s'.allocs
        else []
      RunOutcome.finished
        { verdict := !leftover && leaks.isEmpty
          ranLeftoverCheck := true
          ranLeakCheck := function_type ≠ UnitTestFunctionType.setup
          leaked := leaks } s'
  | BodyResult.abortedToHarness s' =>
      RunOutcome.finished
        { verdict := false
          ranLeftoverCheck := false
          ranLeakCheck := false
          leaked := [] } s'
  | BodyResult.fatalAbort => RunOutcome.fatalAbort

/-- The `UnitTest` record of `cmockery.h`: a named callback with its
role. -/
structure UnitTest where
  name : String
  body : List TestAction
  function_type : UnitTestFunctionType

/-- Result of a whole suite run: the per-item `(name, passed)` verdicts,
or a run cut short by a fatal process abort (carrying the verdicts emitted
before the abort). -/
inductive SuiteResult where
  | completed (verdicts : List (String × Bool))
  | abortedRun (verdicts : List (String × Bool))

/-- Prefixes one emitted verdict onto a suite result. -/
def prependVerdict (v : String × Bool) : SuiteResult → SuiteResult
  | SuiteResult.completed vs => SuiteResult.completed (v :: vs)
  | SuiteResult.abortedRun vs => SuiteResult.abortedRun (v :: vs)

/-- Modelled from the spec: the `_run_tests` loop (body not under src/)
runs the items in declaration order, emits each item's verdict, and
continues with the next item whatever the verdict was; only the fatal
misuse abort stops the run. -/
def _run_tests : List UnitTest → EngineState → SuiteResult
  | [], _ => SuiteResult.completed []
  | it :: rest, s =>
      match _run_test it.body it.function_type s with
      | RunOutcome.finished r s' =>
          prependVerdict (it.name, r.verdict) (_run_tests rest s')
      | RunOutcome.fatalAbort => SuiteResult.abortedRun []

/-- Performs `n` consecutive head-consuming reads on one queue, collecting
the returned payloads; `none` when some read hits an empty queue. -/
def popManyQ : Nat → List QueuedValue → Option (List Nat × List QueuedValue)
  | 0, q => some ([], q)
  | n + 1, q =>
      match popQueue q with
      | none => none
      | some (v, q') =>
          match popManyQ n q' with
          | none => none
          | some (vs, q'') => some (v :: vs, q'')

/-- Number of reads a finite entry still serves. -/
def entryCount (e : QueuedValue) : Nat :=
  match e.remaining with
  | some k => k
  | none => 0

/-- Total number of reads a queue of finite entries serves. -/
def queueWeight : List QueuedValue → Nat
  | [] => 0
  | e :: rest => entryCount e + queueWeight rest

/-- Payload sequence a queue of finite entries yields: each entry's
payload repeated its remaining count of times, in queue order. -/
def expandQueue : List QueuedValue → List Nat
  | [] => []
  | e :: rest => List.replicate (entryCount e) e.payload ++ expandQueue rest

/-- Performs `n` consecutive `_mock` reads for `function`, collecting the
returned payloads; `none` when some read is the fatal misuse. -/
def mockMany : Nat → EngineState → String → Option (List Nat × EngineState)
  | 0, s, _ => some ([], s)
  | n + 1, s, f =>
      match _mock s f with
      | MockResult.fatalMisuse => none
      | MockResult.value v s' =>
          match mockMany n s' f with
          | none => none
          | some (vs, s'') => some (v :: vs, s'')

/-- Registers a sequence of `(value, count)` return values for `function`
in order, as consecutive `will_return_count` invocations do. -/
def willReturnAll (s : EngineState) (f : String) : List (Nat × Nat) → EngineState
  | [] => s
  | (v, k) :: rest => willReturnAll (_will_return s f v (some k)) f rest

/-- Number of reads a registration sequence promises: the sum of its
repeat counts. -/
def registrationPops : List (Nat × Nat) → Nat
  | [] => 0
  | (_, k) :: rest => k + registrationPops rest

/-- FIFO expansion of a registration sequence: each payload repeated its
repeat count of times, in registration order. -/
def fifoExpansion : List (Nat × Nat) → List Nat
  | [] => []
  | (v, k) :: rest => List.replicate k v ++ fifoExpansion rest

theorem qset_qset_self {κ α : Type} [DecidableEq κ]
    (m : List (κ × List α)) (key : κ) (q q' : List α) :
    qset (qset m key q) key q' = qset m key q' := by
  induction m with
  | nil => simp [qset]
  | cons hd tl ih =>
      obtain ⟨k, q0⟩ := hd
      by_cases h : k = key
      · simp [qset, h]
      · simp [qset, h, ih]

theorem popManyQ_add (m n : Nat) (q : List QueuedValue) :
    popManyQ (m + n) q =
      match popManyQ m q with
      | none => none
      | some (vs, q') =>
          match popManyQ n q' with
          | none => none
          | some (ws, q'') => some (vs ++ ws, q'') := by
  induction m generalizing q with
  | zero =>
      simp only [Nat.zero_add, popManyQ]
      cases hn : popManyQ n q with
      | none => rfl
      | some p => obtain ⟨ws, q''⟩ := p; rfl
  | succ m ih =>
      have hms : m + 1 + n = (m + n) + 1 := by omega
      rw [hms]
      simp only [popManyQ]
      cases hp : popQueue q with
      | none => rfl
      | some p =>
          obtain ⟨v, q'⟩ := p
          dsimp only
          rw [ih q']
          cases hm : popManyQ m q' with
          | none => rfl
          | some pm =>
              obtain ⟨vs, q₂⟩ := pm
              dsimp only
              cases hn : popManyQ n q₂ with
              | none => rfl
              | some pn => obtain ⟨ws, q₃⟩ := pn; rfl

theorem popManyQ_drain_entry (k p : Nat) (rest : List QueuedValue) :
    popManyQ (k + 1) (⟨p, some (k + 1)⟩ :: rest) =
      some (List.replicate (k + 1) p, rest) := by
  induction k with
  | zero => simp [popManyQ, popQueue]
  | succ k ih =>
      have h1 : ¬ (1 + (k + 1) ≤ 1) := by omega
      have h2 : 1 + (k + 1) - 1 = k + 1 := by omega
      have hstep : popManyQ 1 (⟨p, some (1 + (k + 1))⟩ :: rest)
          = some ([p], ⟨p, some (k + 1)⟩ :: rest) := by
        simp [popManyQ, popQueue, h1, h2]
      have hsplit : k + 1 + 1 = 1 + (k + 1) := by omega
      rw [hsplit, popManyQ_add, hstep]
      dsimp only
      rw [ih]
      have h3 : 1 + (k + 1) = k + 1 + 1 := by omega
      rw [h3]
      simp [List.replicate_succ]

theorem popManyQ_drain (es : List QueuedValue)
    (h : ∀ e ∈ es, ∃ k, e.remaining = some (k + 1)) :
    popManyQ (queueWeight es) es = some (expandQueue es, []) := by
  induction es with
  | nil => simp [queueWeight, popManyQ, expandQueue]
  | cons e rest ih =>
      obtain ⟨k, hk⟩ := h e (List.mem_cons_self e rest)
      obtain ⟨p, r⟩ := e
      simp only at hk
      subst hk
      have hcount : entryCount ⟨p, some (k + 1)⟩ = k + 1 := rfl
      simp only [queueWeight, hcount]
      rw [popManyQ_add]
      rw [popManyQ_drain_entry]
      dsimp only
      rw [ih (fun e he => h e (List.mem_cons_of_mem _ he))]
      simp [expandQueue, hcount]

theorem mockMany_popManyQ (n : Nat) (s : EngineState) (f : String)
    (vs : List Nat) (q' : List QueuedValue)
    (h : popManyQ n (qlookup s.values f) = some (vs, q')) :
    ∃ s', mockMany n s f = some (vs, s') ∧ qlookup s'.values f = q'
      ∧ s'.expects = s.expects ∧ s'.allocs = s.allocs := by
  induction n generalizing s vs q' with
  | zero =>
      simp only [popManyQ, Option.some.injEq, Prod.mk.injEq] at h
      exact ⟨s, by simp [mockMany, h.1], by simp [h.2], rfl, rfl⟩
  | succ n ih =>
      simp only [popManyQ] at h
      cases hp : popQueue (qlookup s.values f) with
      | none => rw [hp] at h; exact absurd h (by simp)
      | some p =>
          obtain ⟨v, q₁⟩ := p
          rw [hp] at h
          dsimp only at h
          cases hm : popManyQ n q₁ with
          | none => rw [hm] at h; exact absurd h (by simp)
          | some pm =>
              obtain ⟨ws, q₂⟩ := pm
              rw [hm] at h
              dsimp only at h
              simp only [Option.some.injEq, Prod.mk.injEq] at h
              obtain ⟨hvs, hq⟩ := h
              set s₁ : EngineState := { s with values := qset s.values f q₁ } with hs₁
              have hlook : qlookup s₁.values f = q₁ := by
                simp [hs₁, qlookup_qset_self]
              have hm' : popManyQ n (qlookup s₁.values f) = some (ws, q₂) := by
                rw [hlook]; exact hm
              obtain ⟨s', hrun, hq', hexp, hall⟩ := ih s₁ ws q₂ hm'
              refine ⟨s', ?_, by rw [hq', hq], by simp [hexp, hs₁], by simp [hall, hs₁]⟩
              simp only [mockMany, _mock, hp, hrun]
              simp [← hvs, hs₁]

theorem willReturnAll_values_lookup (s : EngineState) (f : String)
    (regs : List (Nat × Nat)) :
    qlookup (willReturnAll s f regs).values f
      = qlookup s.values f ++ regs.map (fun r => ⟨r.1, some r.2⟩) := by
  induction regs generalizing s with
  | nil => simp [willReturnAll]
  | cons r rest ih =>
      obtain ⟨v, k⟩ := r
      simp only [willReturnAll, List.map_cons]
      rw [ih]
      simp [_will_return, qlookup_qappend_self]

theorem queueWeight_ofRegs (regs : List (Nat × Nat)) :
    queueWeight (regs.map (fun r => ⟨r.1, some r.2⟩)) = registrationPops regs := by
  induction regs with
  | nil => rfl
  | cons r rest ih =>
      obtain ⟨v, k⟩ := r
      simp [queueWeight, registrationPops, entryCount, ih]

theorem expandQueue_ofRegs (regs : List (Nat × Nat)) :
    expandQueue (regs.map (fun r => ⟨r.1, some r.2⟩)) = fifoExpansion regs := by
  induction regs with
  | nil => rfl
  | cons r rest ih =>
      obtain ⟨v, k⟩ := r
      simp [expandQueue, fifoExpansion, entryCount, ih]

theorem cast_eq_toScalar_emod (m : MachineInt) (hw : m.width ≤ 64) :
    (cast_to_largest_integral_type m : Int) = m.toScalar % 2 ^ 64 := by
  have hbits := m.hbits
  have hwle : (2 : Nat) ^ m.width ≤ 2 ^ 64 := Nat.pow_le_pow_right (by norm_num) hw
  have hpoww : ((2 ^ m.width : Nat) : Int) = (2 : Int) ^ m.width := by push_cast; ring
  have hpow64 : ((2 ^ 64 : Nat) : Int) = (2 : Int) ^ 64 := by norm_num
  unfold cast_to_largest_integral_type MachineInt.toScalar
  by_cases hneg : m.signed ∧ 2 ^ (m.width - 1) ≤ m.bits
  · rw [if_pos hneg, if_pos hneg, ← hpoww, ← hpow64]
    set x : Int := (m.bits : Int) - ((2 ^ m.width : Nat) : Int) with hx
    set B : Int := ((2 ^ 64 : Nat) : Int) with hB
    have h2 : (x + B) % B = x % B := by
      have h := Int.add_mul_emod_self_left (a := x) (b := B) (c := 1)
      rwa [mul_one] at h
    have h3 : (x + B) % B = x + B :=
      Int.emod_eq_of_lt (by omega) (by omega)
    rw [h2.symm.trans h3]
    omega
  · rw [if_neg hneg, if_neg hneg, ← hpow64]
    have h0 : (0 : Int) ≤ (m.bits : Int) := by omega
    have hlt : (m.bits : Int) < ((2 ^ 64 : Nat) : Int) := by omega
    exact (Int.emod_eq_of_lt h0 hlt).symm

/-- Fresh engine state at process start: all maps empty, no live blocks. -/
def initialEngineState : EngineState := { values := [], expects := [], allocs := [] }

/-- C1: for every function key, a `_mock` read from an empty return-value
queue is the fatal misuse: no value is produced, and a suite whose running
item performs such a read aborts the whole process, emitting no per-item
verdict for that item or any later one. -/
theorem mock_empty_queue_fatal_abort (s : EngineState) (f name : String)
    (rest : List TestAction) (t : UnitTestFunctionType) (items : List UnitTest)
    (h : qlookup s.values f = []) :
    _mock s f = MockResult.fatalMisuse ∧
    _run_tests ({ name := name, body := TestAction.actMockRead f :: rest,
                  function_type := t } :: items) s
      = SuiteResult.abortedRun [] := by
  have hmock : _mock s f = MockResult.fatalMisuse := by
    simp [_mock, h, popQueue]
  refine ⟨hmock, ?_⟩
  simp [_run_tests, _run_test, runBody, hmock]

theorem mock_empty_queue_fatal_abort_witness :
    _mock initialEngineState "db_query" = MockResult.fatalMisuse ∧
    _run_tests ({ name := "t", body := [TestAction.actMockRead "db_query"],
                  function_type := UnitTestFunctionType.test } :: []) initialEngineState
      = SuiteResult.abortedRun [] :=
  mock_empty_queue_fatal_abort initialEngineState "db_query" "t" []
    UnitTestFunctionType.test [] rfl

/-- C2: for every (function, parameter) key, a `_check_expected` call
finding that key's expectation queue empty is a recoverable per-item
failure: the check reports failure, control transfers to the harness
boundary, the item is marked FAILED, and the suite continues with the
remaining items instead of terminating the process. -/
theorem check_expected_empty_queue_recoverable (s : EngineState)
    (f p name : String) (v : Nat) (t : UnitTestFunctionType)
    (items : List UnitTest)
    (h : qlookup s.expects (f, p) = []) :
    _check_expected s f p v = CheckOutcome.failTestItem ∧
    runBody [TestAction.actCheckExpected f p v] s = BodyResult.abortedToHarness s ∧
    _run_tests ({ name := name, body := [TestAction.actCheckExpected f p v],
                  function_type := t } :: items) s
      = prependVerdict (name, false) (_run_tests items s) := by
  have hchk : _check_expected s f p v = CheckOutcome.failTestItem := by
    simp [_check_expected, h]
  have hbody : runBody [TestAction.actCheckExpected f p v] s
      = BodyResult.abortedToHarness s := by
    simp [runBody, hchk]
  refine ⟨hchk, hbody, ?_⟩
  simp [_run_tests, _run_test, hbody]

theorem check_expected_empty_queue_recoverable_witness :
    _check_expected initialEngineState "db_query" "sql" 3 = CheckOutcome.failTestItem ∧
    runBody [TestAction.actCheckExpected "db_query" "sql" 3] initialEngineState
      = BodyResult.abortedToHarness initialEngineState ∧
    _run_tests ({ name := "t", body := [TestAction.actCheckExpected "db_query" "sql" 3],
                  function_type := UnitTestFunctionType.test } :: []) initialEngineState
      = prependVerdict ("t", false) (_run_tests [] initialEngineState) :=
  check_expected_empty_queue_recoverable initialEngineState "db_query" "sql" "t" 3
    UnitTestFunctionType.test [] rfl

/-- C3: whenever an item's run finishes with a verdict, the harness emits
that verdict and proceeds to run the remaining items from the resulting
state: a recoverable failure (FAILED verdict) of the item never prevents a
later item from being executed and reported. -/
theorem run_tests_forward_progress (it : UnitTest) (rest : List UnitTest)
    (s : EngineState) (r : RunReport) (s' : EngineState)
    (h : _run_test it.body it.function_type s = RunOutcome.finished r s') :
    _run_tests (it :: rest) s
      = prependVerdict (it.name, r.verdict) (_run_tests rest s') := by
  simp [_run_tests, h]

theorem run_tests_forward_progress_witness :
    _run_tests ({ name := "t1", body := [TestAction.actAssert false],
                  function_type := UnitTestFunctionType.test } ::
                [{ name := "t2", body := [],
                   function_type := UnitTestFunctionType.test }]) initialEngineState
      = prependVerdict ("t1", false)
          (_run_tests [{ name := "t2", body := [],
                         function_type := UnitTestFunctionType.test }] initialEngineState) :=
  run_tests_forward_progress
    { name := "t1", body := [TestAction.actAssert false],
      function_type := UnitTestFunctionType.test }
    [{ name := "t2", body := [], function_type := UnitTestFunctionType.test }]
    initialEngineState
    { verdict := false, ranLeftoverCheck := false, ranLeakCheck := false, leaked := [] }
    initialEngineState rfl

/-- C4: when the item's callback reaches the harness through the abort
boundary instead of returning normally, the item is marked FAILED and
neither the leftover check nor the allocation-checkpoint diff runs; those
post-checks run only after a normal return. -/
theorem abort_boundary_skips_post_checks (body : List TestAction)
    (t : UnitTestFunctionType) (s : EngineState) :
    (∀ s', runBody body s = BodyResult.abortedToHarness s' →
        _run_test body t s = RunOutcome.finished
          { verdict := false, ranLeftoverCheck := false,
            ranLeakCheck := false, leaked := [] } s') ∧
    (∀ r s', _run_test body t s = RunOutcome.finished r s' →
        (r.ranLeftoverCheck = true ∨ r.ranLeakCheck = true) →
        ∃ s₀, runBody body s = BodyResult.normalReturn s₀) := by
  constructor
  · intro s' h
    simp [_run_test, h]
  · intro r s' h hr
    cases hb : runBody body s with
    | normalReturn s₀ => exact ⟨s₀, rfl⟩
    | abortedToHarness s₀ =>
        simp only [_run_test, hb, RunOutcome.finished.injEq] at h
        obtain ⟨hrep, hst⟩ := h
        rw [← hrep] at hr
        simp at hr
    | fatalAbort =>
        simp only [_run_test, hb] at h
        exact (RunOutcome.noConfusion h)

theorem abort_boundary_skips_post_checks_witness :
    _run_test [TestAction.actAssert false] UnitTestFunctionType.test initialEngineState
      = RunOutcome.finished
          { verdict := false, ranLeftoverCheck := false,
            ranLeakCheck := false, leaked := [] } initialEngineState :=
  (abort_boundary_skips_post_checks [TestAction.actAssert false]
    UnitTestFunctionType.test initialEngineState).1 initialEngineState rfl

/-- C5: after a normal return the allocation-leak check is skipped exactly
when the item's role is SETUP; for a TEST or TEARDOWN item the checkpoint
is diffed, the leaked blocks are the ones live now that were not live at
the checkpoint, and a nonempty leak list makes the item FAIL. -/
theorem setup_items_exempt_from_leak_check (body : List TestAction)
    (t : UnitTestFunctionType) (s s' : EngineState)
    (h : runBody body s = BodyResult.normalReturn s') :
    ∃ r, _run_test body t s = RunOutcome.finished r s' ∧
      r.ranLeakCheck = decide (t ≠ UnitTestFunctionType.setup) ∧
      (t = UnitTestFunctionType.setup → r.leaked = []) ∧
      (t ≠ UnitTestFunctionType.setup →
        r.leaked = blocksAllocatedSince s.allocs s'.allocs ∧
        (r.leaked ≠ [] → r.verdict = false)) := by
  by_cases ht : t = UnitTestFunctionType.setup
  · subst ht
    refine ⟨⟨!hasLeftoverValues s', true, false, []⟩, ?_, ?_, ?_, ?_⟩
    · simp [_run_test, h]
    · simp
    · intro _; rfl
    · intro hne; exact absurd rfl hne
  · refine ⟨⟨!hasLeftoverValues s' && (blocksAllocatedSince s.allocs s'.allocs).isEmpty,
        true, true, blocksAllocatedSince s.allocs s'.allocs⟩, ?_, ?_, ?_, ?_⟩
    · simp [_run_test, h, ht]
    · simp [ht]
    · intro hc; exact absurd hc ht
    · intro _
      refine ⟨rfl, fun hne => ?_⟩
      cases hl : blocksAllocatedSince s.allocs s'.allocs with
      | nil => exact absurd hl hne
      | cons a as => simp [hl]

theorem setup_items_exempt_from_leak_check_witness :
    ∃ r, _run_test [TestAction.actMalloc 100] UnitTestFunctionType.test initialEngineState
        = RunOutcome.finished r { values := [], expects := [], allocs := [100] } ∧
      r.ranLeakCheck = decide (UnitTestFunctionType.test ≠ UnitTestFunctionType.setup) ∧
      (UnitTestFunctionType.test = UnitTestFunctionType.setup → r.leaked = []) ∧
      (UnitTestFunctionType.test ≠ UnitTestFunctionType.setup →
        r.leaked = blocksAllocatedSince initialEngineState.allocs
          ({ values := [], expects := [], allocs := [100] } : EngineState).allocs ∧
        (r.leaked ≠ [] → r.verdict = false)) :=
  setup_items_exempt_from_leak_check [TestAction.actMalloc 100]
    UnitTestFunctionType.test initialEngineState
    { values := [], expects := [], allocs := [100] } rfl

/-- C6: for every function key, pushing a sequence of `(value, count)`
registrations onto an empty queue and then popping as many times as the
counts promise returns the payloads in FIFO order, each payload repeated
exactly its repeat count of times before its entry is removed, leaving the
queue empty. -/
theorem value_queue_fifo_repeat (s : EngineState) (f : String)
    (regs : List (Nat × Nat))
    (hempty : qlookup s.values f = [])
    (hpos : ∀ r ∈ regs, 1 ≤ r.2) :
    ∃ s', mockMany (registrationPops regs) (willReturnAll s f regs) f
        = some (fifoExpansion regs, s') ∧ qlookup s'.values f = [] := by
  have hlook : qlookup (willReturnAll s f regs).values f
      = regs.map (fun r => ⟨r.1, some r.2⟩) := by
    rw [willReturnAll_values_lookup, hempty]
    simp
  have hdrain : popManyQ (queueWeight (regs.map (fun r => ⟨r.1, some r.2⟩)))
      (regs.map (fun r => ⟨r.1, some r.2⟩))
      = some (expandQueue (regs.map fun r => ⟨r.1, some r.2⟩), []) := by
    apply popManyQ_drain
    intro e he
    simp only [List.mem_map] at he
    obtain ⟨r, hr, rfl⟩ := he
    have h1 := hpos r hr
    exact ⟨r.2 - 1, by simp only [Option.some.injEq]; omega⟩
  rw [queueWeight_ofRegs, expandQueue_ofRegs] at hdrain
  have hdrain' : popManyQ (registrationPops regs)
      (qlookup (willReturnAll s f regs).values f)
      = some (fifoExpansion regs, []) := by
    rw [hlook]; exact hdrain
  obtain ⟨s', hrun, hq, _, _⟩ := mockMany_popManyQ _ _ f _ _ hdrain'
  exact ⟨s', hrun, hq⟩

theorem value_queue_fifo_repeat_witness :
    fifoExpansion [(5, 1), (7, 2)] = [5, 7, 7] ∧
    ∃ s', mockMany (registrationPops [(5, 1), (7, 2)])
        (willReturnAll initialEngineState "F" [(5, 1), (7, 2)]) "F"
        = some (fifoExpansion [(5, 1), (7, 2)], s') ∧ qlookup s'.values "F" = [] :=
  ⟨rfl, value_queue_fifo_repeat initialEngineState "F" [(5, 1), (7, 2)] rfl (by decide)⟩

/-- C7: ExactValue and ExcludedValue comparisons happen after both sides
are widened to `LargestIntegralType`; two operands equal as scalars, of
any (possibly different) native widths up to 64 bits, always widen to the
same word, so the equality check passes and the inequality check fails —
differing widths never cause a spurious mismatch. -/
theorem widened_equality_no_spurious_mismatch (a b : MachineInt)
    (ha : a.width ≤ 64) (hb : b.width ≤ 64)
    (h : a.toScalar = b.toScalar) :
    cast_to_largest_integral_type a = cast_to_largest_integral_type b ∧
    checkEvent (CheckEvent.exactValue (cast_to_largest_integral_type a))
        (cast_to_largest_integral_type b) = true ∧
    checkEvent (CheckEvent.excludedValue (cast_to_largest_integral_type a))
        (cast_to_largest_integral_type b) = false := by
  have hcast : ((cast_to_largest_integral_type a : Nat) : Int)
      = ((cast_to_largest_integral_type b : Nat) : Int) := by
    rw [cast_eq_toScalar_emod a ha, cast_eq_toScalar_emod b hb, h]
  have heq : cast_to_largest_integral_type a = cast_to_largest_integral_type b := by
    exact_mod_cast hcast
  refine ⟨heq, ?_, ?_⟩ <;> simp [checkEvent, values_equal_display_error, heq]

theorem widened_equality_no_spurious_mismatch_witness :
    cast_to_largest_integral_type ⟨8, true, 255, by norm_num⟩
      = cast_to_largest_integral_type ⟨32, true, 4294967295, by norm_num⟩ ∧
    checkEvent (CheckEvent.exactValue
        (cast_to_largest_integral_type ⟨8, true, 255, by norm_num⟩))
        (cast_to_largest_integral_type ⟨32, true, 4294967295, by norm_num⟩) = true ∧
    checkEvent (CheckEvent.excludedValue
        (cast_to_largest_integral_type ⟨8, true, 255, by norm_num⟩))
        (cast_to_largest_integral_type ⟨32, true, 4294967295, by norm_num⟩) = false :=
  widened_equality_no_spurious_mismatch
    ⟨8, true, 255, by norm_num⟩ ⟨32, true, 4294967295, by norm_num⟩
    (by norm_num) (by norm_num) (by decide)

/-- C8: a ValueInRange(lo, hi) check passes exactly when
lo ≤ actual ≤ hi, both bounds inclusive, and a ValueNotInRange(lo, hi)
check passes exactly when actual < lo or actual > hi. -/
theorem in_range_checks_inclusive (lo hi actual : Nat) :
    (checkEvent (CheckEvent.valueInRange lo hi) actual = true
      ↔ lo ≤ actual ∧ actual ≤ hi) ∧
    (checkEvent (CheckEvent.valueNotInRange lo hi) actual = true
      ↔ actual < lo ∨ hi < actual) := by
  simp [checkEvent]

/-- C9: the failure primitive is recoverable inside a test item and fatal
outside one: with `global_running_test` nonzero, `exit_test` (and hence
`_fail`) longjmps to the per-test jump buffer; with no test running and
the quit flag set, it terminates the process with exit(-1). -/
theorem exit_test_recoverable_inside_test_fatal_outside (running quit : Int) :
    (running ≠ 0 → exit_test quit running = ExitAction.longjmpRunTestEnv ∧
        _fail running = ExitAction.longjmpRunTestEnv) ∧
    (running = 0 → quit ≠ 0 → exit_test quit running = ExitAction.exitProcess (-1)) ∧
    (running = 0 → _fail running = ExitAction.exitProcess (-1)) := by
  refine ⟨fun hr => ⟨?_, ?_⟩, fun hr hq => ?_, fun hr => ?_⟩
  · simp [exit_test, hr]
  · simp [_fail, exit_test, hr]
  · simp [exit_test, hr, hq]
  · simp [_fail, exit_test, hr]

theorem exit_test_recoverable_witness :
    exit_test 1 1 = ExitAction.longjmpRunTestEnv ∧
    exit_test 1 0 = ExitAction.exitProcess (-1) :=
  ⟨((exit_test_recoverable_inside_test_fatal_outside 1 1).1 (by decide)).1,
   (exit_test_recoverable_inside_test_fatal_outside 0 1).2.1 rfl (by decide)⟩

/-- C10: `_test_free` is not a no-op on a null pointer: its leading
non-null assertion fails, so `test_free(NULL)` is an assertion failure and
never a successful free, although the public header documents the pointer
as allowed to be NULL. -/
theorem test_free_null_pointer_asserts (allocs : List Nat) :
    _test_free 0 allocs = FreeResult.assertionFailure ∧
    ∀ allocs', _test_free 0 allocs ≠ FreeResult.ok allocs' := by
  constructor
  · simp [_test_free]
  · intro allocs'
    simp [_test_free]

end Cmockery
